import Mathlib

/-!
# vsgtext: font metrics reader and technique cache

A shallow embedding of `src/Desktop/vsgtext/vsgtext.cpp` (namespace `text`):

* `readUnity3dFontMetaFile` with its local lambdas `split`, `uintValueFromPair`,
  `floatValueFromPair`, `stringValueFromPair`, the `std::ifstream`/`std::getline`
  calls it makes and the `std::map` it fills;
* `Font::getTechnique<T>`, `StandardText::StandardText` and `readFont`.

Conventions of the embedding.

* A `std::string` is a `List Char`.
* `float` values are read as exact rationals (`ℚ`).
* `std::vector::operator[]` with an index that is out of range is undefined
  behaviour in C++.  Functions that index vectors return an `Option`; `none`
  stands for an execution that has hit undefined behaviour, so nothing is
  guaranteed about it (in particular it is neither "returned true" nor
  "returned false").
* The C library functions `atoi` and `atof`, the file system, `vsg::findFile`,
  `vsg::concatPaths` and `vsg::read_cast` are not code of this file; they are
  taken as parameters.  `decimalLib` is a concrete instance used to evaluate the
  definitions on concrete descriptors.
-/

namespace text

/-- A `std::string`. -/
abbrev Str := List Char

/-! ## Data model -/

/-- The struct `GlyphData`; `vec4`/`vec2` are tuples of rationals. -/
structure GlyphData where
  character : Nat
  uvrect : ℚ × ℚ × ℚ × ℚ
  size : ℚ × ℚ
  offset : ℚ × ℚ
  xadvance : ℚ
  lookupOffset : ℚ
deriving DecidableEq

/-- The type `GlyphMap = std::map<uint16_t, GlyphData>`: the entries in ascending key order. -/
abbrev GlyphMap := List (Nat × GlyphData)

/-- The statement `glyphMap[key] = glyph`: overwrite the entry of `key` or insert a new one. -/
def GlyphMap.assign : GlyphMap → Nat → GlyphData → GlyphMap
  | [], key, glyph => [(key, glyph)]
  | (k, g) :: rest, key, glyph =>
    if key < k then (key, glyph) :: (k, g) :: rest
    else if key = k then (key, glyph) :: rest
    else (k, g) :: GlyphMap.assign rest key glyph

/-- Lookup of a key, as `glyphMap.find(key)`. -/
def GlyphMap.find : GlyphMap → Nat → Option GlyphData
  | [], _ => none
  | (k, g) :: rest, key => if key = k then some g else GlyphMap.find rest key

/-- The number of entries, `glyphMap.size()`. -/
def GlyphMap.size (m : GlyphMap) : Nat := m.length

/-! ## The C library and the input stream -/

/-- The two C library conversions the reader calls. -/
structure CLib where
  atoi : Str → Int
  atof : Str → ℚ

/-- An `std::ifstream`: whether the stream is still `good()`, and the characters not yet read. -/
structure IStream where
  good : Bool
  buf : Str
deriving DecidableEq

/-- The constructor `std::ifstream in(filePath)`: `none` is a file that cannot be opened, which
leaves the stream in a failed state. -/
def IStream.ofFile : Option Str → IStream
  | none => ⟨false, []⟩
  | some content => ⟨true, content⟩

/-- The characters before the first newline, and what follows that newline when there is one. -/
def takeLine : Str → Str × Option Str
  | [] => ([], none)
  | c :: cs =>
    if c = '\n' then ([], some cs)
    else ((c :: (takeLine cs).1), (takeLine cs).2)

/-- The call `std::getline(in, line)` on a freshly declared `line`: on a stream that is not good
nothing is read and `line` stays empty; otherwise the characters up to the next newline are
extracted, the newline is dropped, and reaching the end of the input first ends the stream's good
state. -/
def getline (s : IStream) : Str × IStream :=
  if s.good then
    match takeLine s.buf with
    | (line, some rest) => (line, ⟨true, rest⟩)
    | (line, none) => (line, ⟨false, []⟩)
  else ([], s)

/-! ## The lambdas of `readUnity3dFontMetaFile` -/

/-- The loop of the lambda `split`: `cur` holds, reversed, the characters since `prev_pos`. -/
def splitLoop (seperator : Char) : Str → Str → List Str
  | [], cur => [cur.reverse]
  | c :: cs, cur =>
    if c = seperator then cur.reverse :: splitLoop seperator cs []
    else splitLoop seperator cs (c :: cur)

/-- The lambda `split`: the substrings between the occurrences of `seperator`. -/
def split (str : Str) (seperator : Char) : List Str := splitLoop seperator str []

/-- The lambda `uintValueFromPair`: `static_cast<uint32_t>(atoi(els[1]))`. -/
def uintValueFromPair (lib : CLib) (str : Str) : Option Nat :=
  match (split str '=')[1]? with
  | none => none
  | some v => some (lib.atoi v % 4294967296).toNat

/-- The lambda `floatValueFromPair`: `atof(els[1])`. -/
def floatValueFromPair (lib : CLib) (str : Str) : Option ℚ :=
  match (split str '=')[1]? with
  | none => none
  | some v => some (lib.atof v)

/-- The lambda `stringValueFromPair`: `els[1]`. -/
def stringValueFromPair (str : Str) : Option Str := (split str '=')[1]?

/-! ## `readUnity3dFontMetaFile` -/

/-- The locals set by the header lines (source lines 73 to 102). -/
structure Header where
  facename : Str
  fontPixelHeight : ℚ
  lineHeight : ℚ
  baseLine : ℚ
  scaleWidth : ℚ
  scaleHeight : ℚ
  charscount : Nat
deriving DecidableEq

/-- Source lines 73 to 102: the info, common, page and chars-count lines. -/
def readHeader (lib : CLib) (s : IStream) : Option (Header × IStream) :=
  let infoline := (getline s).1
  let s1 := (getline s).2
  let infoelements := split infoline ' '
  (infoelements[1]?.bind stringValueFromPair).bind fun facename =>
  (infoelements[2]?.bind (floatValueFromPair lib)).bind fun fontPixelHeight =>
  let commonline := (getline s1).1
  let s2 := (getline s1).2
  let commonelements := split commonline ' '
  (commonelements[1]?.bind (floatValueFromPair lib)).bind fun lineHeight =>
  (commonelements[2]?.bind (floatValueFromPair lib)).bind fun baseLine =>
  (commonelements[3]?.bind (floatValueFromPair lib)).bind fun scaleWidth =>
  (commonelements[4]?.bind (floatValueFromPair lib)).bind fun scaleHeight =>
  let s3 := (getline s2).2
  let charsline := (getline s3).1
  let s4 := (getline s3).2
  let charselements := split charsline ' '
  (charselements[1]?.bind (uintValueFromPair lib)).bind fun charscount =>
  some (⟨facename, fontPixelHeight, lineHeight, baseLine, scaleWidth, scaleHeight, charscount⟩, s4)

/-- Source lines 109 to 142: the glyph built from one character line. -/
def readGlyph (lib : CLib) (scaleWidth scaleHeight fontPixelHeight normalisedBaseLine : ℚ)
    (line : Str) : Option GlyphData :=
  let elements := split line ' '
  (elements[1]?.bind (uintValueFromPair lib)).bind fun id =>
  let character := id % 65536
  (elements[2]?.bind (floatValueFromPair lib)).bind fun x =>
  (elements[3]?.bind (floatValueFromPair lib)).bind fun y =>
  (elements[4]?.bind (floatValueFromPair lib)).bind fun width =>
  (elements[5]?.bind (floatValueFromPair lib)).bind fun height =>
  let y := scaleHeight - (y + height)
  (elements[6]?.bind (floatValueFromPair lib)).bind fun xoffset =>
  (elements[7]?.bind (floatValueFromPair lib)).bind fun yoffset =>
  (elements[8]?.bind (floatValueFromPair lib)).bind fun xadvance =>
  let uvorigin : ℚ × ℚ := (x / scaleWidth, y / scaleHeight)
  let uvsize : ℚ × ℚ := (width / scaleWidth, height / scaleHeight)
  let size : ℚ × ℚ := (width / fontPixelHeight, height / fontPixelHeight)
  some
    { character := character
      uvrect := (uvorigin.1, uvorigin.2, uvsize.1, uvsize.2)
      size := size
      offset := (xoffset / fontPixelHeight, normalisedBaseLine - size.2 - yoffset / fontPixelHeight)
      xadvance := xadvance / fontPixelHeight
      lookupOffset := 0 }

/-- Source lines 105 to 146: the loop over the character lines, `n` iterations left. -/
def readGlyphs (lib : CLib) (scaleWidth scaleHeight fontPixelHeight normalisedBaseLine : ℚ) :
    Nat → IStream → GlyphMap → Option GlyphMap
  | 0, _, glyphMap => some glyphMap
  | n + 1, s, glyphMap =>
    match readGlyph lib scaleWidth scaleHeight fontPixelHeight normalisedBaseLine (getline s).1 with
    | none => none
    | some glyph =>
      readGlyphs lib scaleWidth scaleHeight fontPixelHeight normalisedBaseLine n (getline s).2
        (glyphMap.assign glyph.character glyph)

/-- The return value of `readUnity3dFontMetaFile` and its three reference parameters on exit. -/
structure ReadResult where
  ok : Bool
  glyphMap : GlyphMap
  fontPixelHeight : ℚ
  normalisedLineHeight : ℚ
deriving DecidableEq

/-- The function `readUnity3dFontMetaFile`.  `fs filePath` is the content of the file, `none` when
it cannot be opened; the last three arguments are the reference parameters on entry. -/
def readUnity3dFontMetaFile (lib : CLib) (fs : Str → Option Str) (filePath : Str)
    (glyphMap : GlyphMap) (fontPixelHeight normalisedLineHeight : ℚ) : Option ReadResult :=
  if filePath = [] then some ⟨false, glyphMap, fontPixelHeight, normalisedLineHeight⟩
  else
    match readHeader lib (IStream.ofFile (fs filePath)) with
    | none => none
    | some (h, s) =>
      match readGlyphs lib h.scaleWidth h.scaleHeight h.fontPixelHeight
          (h.baseLine / h.fontPixelHeight) h.charscount s glyphMap with
      | none => none
      | some glyphs => some ⟨true, glyphs, h.fontPixelHeight, h.lineHeight / h.fontPixelHeight⟩

/-! ## A concrete C library for decimal numerals -/

/-- The value of a run of decimal digits after the value `acc`, and the rest of the string. -/
def readDigits : Str → Nat → Nat × Str
  | [], acc => (acc, [])
  | c :: cs, acc =>
    if c.isDigit then readDigits cs (10 * acc + (c.toNat - 48)) else (acc, c :: cs)

/-- The sign prefix of a numeral: whether it is negative, and the rest. -/
def readSign : Str → Bool × Str
  | '-' :: cs => (true, cs)
  | '+' :: cs => (false, cs)
  | cs => (false, cs)

/-- The function `atoi` on an optionally signed decimal numeral. -/
def atoiDecimal (s : Str) : Int :=
  let sg := readSign (s.dropWhile Char.isWhitespace)
  let n : Int := (readDigits sg.2 0).1
  if sg.1 then -n else n

/-- The function `atof` on an optionally signed decimal numeral with an optional fraction part
(exponents, hexadecimal forms, infinities and NaN are outside this instance). -/
def atofDecimal (s : Str) : ℚ :=
  let sg := readSign (s.dropWhile Char.isWhitespace)
  let ip := readDigits sg.2 0
  let v : ℚ :=
    match ip.2 with
    | '.' :: fs =>
      let fp := readDigits fs 0
      (ip.1 : ℚ) + (fp.1 : ℚ) / (10 : ℚ) ^ (fs.length - fp.2.length)
    | _ => (ip.1 : ℚ)
  if sg.1 then -v else v

/-- The C library restricted to decimal numerals. -/
def decimalLib : CLib := ⟨atoiDecimal, atofDecimal⟩

/-- A file system holding one file. -/
def oneFile (path content : Str) : Str → Option Str :=
  fun p => if p = path then some content else none

/-! ## Fonts and techniques -/

/-- A handle of a `vsg::ShaderStage` object. -/
abbrev ShaderStage := Nat

/-- A handle of a `vsg::Data` object (the atlas image). -/
abbrev Data := Nat

/-- The class `vsg::Options`, of which the code uses the search paths. -/
structure Options where
  paths : List Str
deriving DecidableEq

/-- The members of `Font::Technique`.  A `vsg::ref_ptr` is an `Option`, `none` being null; of the
pipeline the model keeps the `vsg::ShaderStages` it was created with, of the descriptor set the
texture data. -/
structure TechniqueState where
  bindGraphicsPipeline : Option (List (Option ShaderStage))
  bindDescriptorSet : Option (Option Data)
deriving DecidableEq

/-- The classes `getTechnique` can be instantiated with: `StandardText`, the one this file
defines, and classes of client code. -/
inductive TechniqueClass where
  | StandardText
  | client (n : Nat)
deriving DecidableEq

/-- A technique object on the heap: its address (the identity that `ref_ptr` comparison sees), its
dynamic type, and its members. -/
structure Technique where
  addr : Nat
  dynType : TechniqueClass
  state : TechniqueState
deriving DecidableEq

/-- The class `Font`.  `heapNext` is ghost state, an address above those of all the technique
objects allocated so far, from which `T::create` takes the address of a new object. -/
structure Font where
  atlas : Option Data
  glyphs : GlyphMap
  fontHeight : ℚ
  normalisedLineHeight : ℚ
  options : Options
  techniques : List Technique
  heapNext : Nat
deriving DecidableEq

/-- The functions of the VSG library and the file system that the code calls. -/
structure Vsg where
  concatPaths : Str → Str → Str
  findFile : Str → List Str → Str
  readData : Str → Option Data
  readShaderStage : Str → Options → Option ShaderStage
  file : Str → Option Str

/-- The constructor `StandardText::StandardText(Font* font)`: the members it sets, and the lines
it prints after the two shader addresses. -/
def StandardText.StandardText (vsg : Vsg) (font : Font) : TechniqueState × List String :=
  let textureData := font.atlas
  let vertexShader := vsg.readShaderStage "shaders/text.vert".toList font.options
  let fragmentShader := vsg.readShaderStage "shaders/text.frag".toList font.options
  let out := if vertexShader.isNone || fragmentShader.isNone then ["Could not create shaders."] else []
  ({ bindGraphicsPipeline := some [vertexShader, fragmentShader]
     bindDescriptorSet := some textureData }, out)

/-- The members set by the constructor that `T::create(this)` runs: the constructor above for
`StandardText`, a parameter for the classes of client code. -/
def construct (vsg : Vsg) (clientCtor : Nat → Font → TechniqueState) :
    TechniqueClass → Font → TechniqueState
  | .StandardText, font => (StandardText.StandardText vsg font).1
  | .client n, font => clientCtor n font

/-- The call `technique.cast<T>()`: the object itself when its dynamic type is `T` or a class
derived from `T` (`derives d T`), null otherwise. -/
def Technique.cast (derives : TechniqueClass → TechniqueClass → Bool) (T : TechniqueClass)
    (technique : Technique) : Option Technique :=
  if technique.dynType = T ∨ derives technique.dynType T = true then some technique else none

/-- The `for` loop of `Font::getTechnique`: the first technique of the list that casts to `T`. -/
def Font.findTechnique (derives : TechniqueClass → TechniqueClass → Bool) (T : TechniqueClass) :
    List Technique → Option Technique
  | [] => none
  | technique :: rest =>
    match technique.cast derives T with
    | some tech => some tech
    | none => Font.findTechnique derives T rest

/-- The member function `Font::getTechnique<T>()`: the returned `ref_ptr` and the Font after the
call. -/
def Font.getTechnique (derives : TechniqueClass → TechniqueClass → Bool)
    (create : TechniqueClass → Font → TechniqueState) (T : TechniqueClass) (font : Font) :
    Option Technique × Font :=
  match Font.findTechnique derives T font.techniques with
  | some tech => (some tech, font)
  | none =>
    let tech : Technique := ⟨font.heapNext, T, create T font⟩
    (some tech,
      { font with techniques := font.techniques ++ [tech], heapNext := font.heapNext + 1 })

/-- A sequence of `getTechnique` requests, in order. -/
def Font.requests (derives : TechniqueClass → TechniqueClass → Bool)
    (create : TechniqueClass → Font → TechniqueState) : List TechniqueClass → Font → Font
  | [], font => font
  | T :: rest, font => Font.requests derives create rest (Font.getTechnique derives create T font).2

/-- The function `readFont`: `none` is undefined behaviour, `some none` the null `ref_ptr`. -/
def readFont (lib : CLib) (vsg : Vsg) (fontName : Str) (options : Options) : Option (Option Font) :=
  let font_textureFile := vsg.concatPaths "fonts".toList fontName ++ ".vsgb".toList
  let font_metricsFile := vsg.concatPaths "fonts".toList fontName ++ ".txt".toList
  let font : Font :=
    { atlas := none, glyphs := [], fontHeight := 0, normalisedLineHeight := 0, options := options,
      techniques := [], heapNext := 0 }
  let font := { font with atlas := vsg.readData (vsg.findFile font_textureFile options.paths) }
  if font.atlas.isNone then some none
  else
    match readUnity3dFontMetaFile lib vsg.file (vsg.findFile font_metricsFile options.paths)
        font.glyphs font.fontHeight font.normalisedLineHeight with
    | none => none
    | some r => if r.ok then
        some (some { font with glyphs := r.glyphMap, fontHeight := r.fontPixelHeight,
                               normalisedLineHeight := r.normalisedLineHeight })
      else some none

/-! ## Vocabulary of the properties -/

/-- The lines that the next `n` iterations of the character loop read from the stream. -/
def characterLines : Nat → IStream → List Str
  | 0, _ => []
  | n + 1, s => (getline s).1 :: characterLines n (getline s).2

/-- The 16-bit character code that the loop reads from a character line. -/
def characterCode (lib : CLib) (line : Str) : Option Nat :=
  ((split line ' ')[1]?.bind (uintValueFromPair lib)).map (fun id => id % 65536)

/-- The pixel rectangle `(x, y, width, height)` that the loop reads from a character line. -/
def pixelRect (lib : CLib) (line : Str) : Option (ℚ × ℚ × ℚ × ℚ) :=
  ((split line ' ')[2]?.bind (floatValueFromPair lib)).bind fun x =>
  ((split line ' ')[3]?.bind (floatValueFromPair lib)).bind fun y =>
  ((split line ' ')[4]?.bind (floatValueFromPair lib)).bind fun width =>
  ((split line ' ')[5]?.bind (floatValueFromPair lib)).map fun height => (x, y, width, height)

/-- A pixel rectangle that lies inside an atlas of `W` by `H` pixels. -/
def InsideAtlas (W H : ℚ) (rect : ℚ × ℚ × ℚ × ℚ) : Prop :=
  0 ≤ rect.1 ∧ rect.1 + rect.2.2.1 ≤ W ∧ 0 ≤ rect.2.1 ∧ rect.2.1 + rect.2.2.2 ≤ H

/-- The range invariant of a glyph: its uv rectangle lies in the unit square. -/
def UVInRange (g : GlyphData) : Prop :=
  0 ≤ g.uvrect.1 ∧ g.uvrect.1 + g.uvrect.2.2.1 ≤ 1 ∧
  0 ≤ g.uvrect.2.1 ∧ g.uvrect.2.1 + g.uvrect.2.2.2 ≤ 1

instance (W H : ℚ) (rect : ℚ × ℚ × ℚ × ℚ) : Decidable (InsideAtlas W H rect) := by
  unfold InsideAtlas; infer_instance

instance (g : GlyphData) : Decidable (UVInRange g) := by
  unfold UVInRange; infer_instance

/-- The tokens 1 to `k` of a line are present and each holds a `key=value` pair. -/
def HasPairs (k : Nat) (line : Str) : Prop :=
  ∀ i, 1 ≤ i → i ≤ k → ((split line ' ')[i]?.bind stringValueFromPair).isSome = true

/-- The info line of a descriptor. -/
def infoLine (content : Str) : Str := (getline ⟨true, content⟩).1

/-- The common line of a descriptor. -/
def commonLine (content : Str) : Str := (getline (getline ⟨true, content⟩).2).1

/-- The stream after the page line of a descriptor. -/
def afterPage (content : Str) : IStream :=
  (getline (getline (getline ⟨true, content⟩).2).2).2

/-- The chars-count line of a descriptor. -/
def charsLine (content : Str) : Str := (getline (afterPage content)).1

/-- The count that the chars-count line declares, as the code reads it. -/
def declaredCount (lib : CLib) (content : Str) : Option Nat :=
  (split (charsLine content) ' ')[1]?.bind (uintValueFromPair lib)

/-- A descriptor that follows the grammar of the format: the info, common and chars-count lines
carry their `key=value` tokens at the fixed positions, and the declared number of character
lines follows, each with its eight `key=value` tokens. -/
def WellFormed (lib : CLib) (content : Str) : Prop :=
  HasPairs 2 (infoLine content) ∧ HasPairs 4 (commonLine content) ∧
  HasPairs 1 (charsLine content) ∧
  ∀ n, declaredCount lib content = some n →
    ∀ line ∈ characterLines n (getline (afterPage content)).2, HasPairs 8 line

/-- A class hierarchy of client code in which class `client 1` derives from `StandardText`. -/
def derivedFromStandardText : TechniqueClass → TechniqueClass → Bool
  | .client 1, .StandardText => true
  | _, _ => false

/-- A flat class hierarchy: no technique class derives from another. -/
def flatHierarchy : TechniqueClass → TechniqueClass → Bool := fun _ _ => false

/-- A Font as `Font::create()` leaves it, with the given atlas. -/
def Font.fresh (atlas : Option Data) (options : Options) : Font :=
  { atlas := atlas, glyphs := [], fontHeight := 0, normalisedLineHeight := 0, options := options,
    techniques := [], heapNext := 0 }

/-- The technique objects of a Font are distinct live objects: their addresses are pairwise
distinct and below the next free address. -/
def Font.HeapOk (font : Font) : Prop :=
  (font.techniques.map Technique.addr).Nodup ∧ ∀ t ∈ font.techniques, t.addr < font.heapNext

/-- Whether an object of dynamic type `d` casts to `T`. -/
def castsTo (derives : TechniqueClass → TechniqueClass → Bool) (d T : TechniqueClass) : Prop :=
  d = T ∨ derives d T = true

/-- An environment whose shader loader supplies the fragment stage but not the vertex stage. -/
def noVertexShader : Vsg :=
  { concatPaths := fun a b => a ++ '/' :: b
    findFile := fun f _ => f
    readData := fun _ => some 1
    readShaderStage := fun name _ => if name = "shaders/text.frag".toList then some 7 else none
    file := fun _ => none }

/-- The descriptor of the worked example: atlas 256 by 256, base 52, size 64, one glyph. -/
def exampleDescriptor : Str :=
  ("info face=A size=64\ncommon lineHeight=70 base=52 scaleW=256 scaleH=256\n" ++
   "page id=0 file=a\nchars count=1\n" ++
   "char id=65 x=10 y=20 width=30 height=40 xoffset=2 yoffset=5 xadvance=35\n").toList

/-- A descriptor that declares two glyphs and gives two lines for the character code 65. -/
def duplicateDescriptor : Str :=
  ("info face=A size=64\ncommon lineHeight=70 base=52 scaleW=256 scaleH=256\n" ++
   "page id=0 file=a\nchars count=2\n" ++
   "char id=65 x=10 y=20 width=30 height=40 xoffset=2 yoffset=5 xadvance=35\n" ++
   "char id=65 x=50 y=20 width=30 height=40 xoffset=2 yoffset=5 xadvance=35\n").toList

/-- A descriptor whose glyph reaches beyond the right edge of the atlas (250 + 30 > 256). -/
def overhangDescriptor : Str :=
  ("info face=A size=64\ncommon lineHeight=70 base=52 scaleW=256 scaleH=256\n" ++
   "page id=0 file=a\nchars count=1\n" ++
   "char id=65 x=250 y=20 width=30 height=40 xoffset=2 yoffset=5 xadvance=35\n").toList

/-- A descriptor that declares one glyph and ends after the chars-count line. -/
def truncatedDescriptor : Str :=
  ("info face=A size=64\ncommon lineHeight=70 base=52 scaleW=256 scaleH=256\n" ++
   "page id=0 file=a\nchars count=1\n").toList

/-- An environment in which the metrics file of the font is found by `vsg::findFile` but cannot
be opened for reading. -/
def unreadableMetrics : Vsg :=
  { concatPaths := fun a b => a ++ '/' :: b
    findFile := fun f _ => f
    readData := fun _ => some 1
    readShaderStage := fun _ _ => none
    file := fun _ => none }

/-- The result of reading the descriptor of the worked example. -/
def exampleResult : ReadResult :=
  ⟨true, [(65, ⟨65, (5 / 128, 49 / 64, 15 / 128, 5 / 32), (15 / 32, 5 / 8), (1 / 32, 7 / 64),
    35 / 64, 0⟩)], 64, 35 / 32⟩

/-- The header of the descriptor of the worked example. -/
def exampleHeader : Header := ⟨['A'], 64, 70, 52, 256, 256, 1⟩

/-- The stream after the header of the descriptor of the worked example. -/
def exampleStream : IStream :=
  ⟨true, "char id=65 x=10 y=20 width=30 height=40 xoffset=2 yoffset=5 xadvance=35\n".toList⟩

/-- The result of reading the descriptor with two lines for the character code 65: the glyph of
the second line. -/
def duplicateResult : ReadResult :=
  ⟨true, [(65, ⟨65, (25 / 128, 49 / 64, 15 / 128, 5 / 32), (15 / 32, 5 / 8), (1 / 32, 7 / 64),
    35 / 64, 0⟩)], 64, 35 / 32⟩

/-- The result of reading the descriptor whose glyph reaches beyond the atlas. -/
def overhangResult : ReadResult :=
  ⟨true, [(65, ⟨65, (125 / 128, 49 / 64, 15 / 128, 5 / 32), (15 / 32, 5 / 8), (1 / 32, 7 / 64),
    35 / 64, 0⟩)], 64, 35 / 32⟩

/-! # Theorems -/

/-! ## Lemmas on the glyph map -/

theorem GlyphMap.find_assign_self : ∀ (m : GlyphMap) (key : Nat) (glyph : GlyphData),
    (m.assign key glyph).find key = some glyph
  | [], key, glyph => by simp [GlyphMap.assign, GlyphMap.find]
  | (k, g) :: rest, key, glyph => by
    unfold GlyphMap.assign
    by_cases h1 : key < k
    · simp [h1, GlyphMap.find]
    · by_cases h2 : key = k
      · simp [h2, GlyphMap.find]
      · simp only [h1, h2, if_false, GlyphMap.find]
        exact GlyphMap.find_assign_self rest key glyph

theorem GlyphMap.mem_assign : ∀ (m : GlyphMap) (key : Nat) (glyph : GlyphData) (kv : Nat × GlyphData),
    kv ∈ m.assign key glyph → kv = (key, glyph) ∨ kv ∈ m
  | [], key, glyph, kv, h => by
    simp only [GlyphMap.assign, List.mem_singleton] at h
    exact Or.inl h
  | (k, g) :: rest, key, glyph, kv, h => by
    unfold GlyphMap.assign at h
    by_cases h1 : key < k
    · simp only [h1, if_true, List.mem_cons] at h
      rcases h with h | h | h
      · exact Or.inl h
      · exact Or.inr (by simp [h])
      · exact Or.inr (List.mem_cons_of_mem _ h)
    · by_cases h2 : key = k
      · rw [if_neg h1, if_pos h2] at h
        rcases List.mem_cons.1 h with h | h
        · exact Or.inl h
        · exact Or.inr (List.mem_cons_of_mem _ h)
      · simp only [h1, h2, if_false, List.mem_cons] at h
        rcases h with h | h
        · exact Or.inr (by simp [h])
        · rcases GlyphMap.mem_assign rest key glyph kv h with h | h
          · exact Or.inl h
          · exact Or.inr (List.mem_cons_of_mem _ h)

theorem GlyphMap.keys_assign : ∀ (m : GlyphMap) (key : Nat) (glyph : GlyphData) (k' : Nat),
    k' ∈ (m.assign key glyph).map Prod.fst ↔ k' = key ∨ k' ∈ m.map Prod.fst
  | [], key, glyph, k' => by simp [GlyphMap.assign]
  | (k, g) :: rest, key, glyph, k' => by
    unfold GlyphMap.assign
    by_cases h1 : key < k
    · simp [h1]
    · by_cases h2 : key = k
      · simp [h2]
      · simp only [h1, h2, if_false, List.map_cons, List.mem_cons]
        rw [GlyphMap.keys_assign rest key glyph k']
        tauto

theorem GlyphMap.length_assign : ∀ (m : GlyphMap) (key : Nat) (glyph : GlyphData),
    key ∉ m.map Prod.fst → (m.assign key glyph).length = m.length + 1
  | [], key, glyph, _ => by simp [GlyphMap.assign]
  | (k, g) :: rest, key, glyph, h => by
    unfold GlyphMap.assign
    simp only [List.map_cons, List.mem_cons, not_or] at h
    by_cases h1 : key < k
    · simp [h1]
    · simp only [h1, h.1, if_false, List.length_cons]
      rw [GlyphMap.length_assign rest key glyph h.2]

/-! ## Lemmas on the reader -/

theorem floatValueFromPair_eq (lib : CLib) (str : Str) :
    floatValueFromPair lib str = (stringValueFromPair str).map lib.atof := by
  unfold floatValueFromPair stringValueFromPair
  cases (split str '=')[1]? <;> rfl

theorem uintValueFromPair_eq (lib : CLib) (str : Str) :
    uintValueFromPair lib str =
      (stringValueFromPair str).map (fun v => (lib.atoi v % 4294967296).toNat) := by
  unfold uintValueFromPair stringValueFromPair
  cases (split str '=')[1]? <;> rfl

theorem HasPairs.float {k : Nat} {line : Str} (h : HasPairs k line) (lib : CLib) (i : Nat)
    (h1 : 1 ≤ i) (hk : i ≤ k) :
    ∃ v, (split line ' ')[i]?.bind stringValueFromPair = some v ∧
      (split line ' ')[i]?.bind (floatValueFromPair lib) = some (lib.atof v) := by
  have hi := h i h1 hk
  obtain ⟨v, hv⟩ := Option.isSome_iff_exists.1 hi
  refine ⟨v, hv, ?_⟩
  cases ht : (split line ' ')[i]? with
  | none => rw [ht] at hv; exact absurd hv (by simp)
  | some t =>
    rw [ht] at hv
    simp only [Option.some_bind] at hv ⊢
    rw [floatValueFromPair_eq, hv]
    rfl

theorem HasPairs.uint {k : Nat} {line : Str} (h : HasPairs k line) (lib : CLib) (i : Nat)
    (h1 : 1 ≤ i) (hk : i ≤ k) :
    ∃ n, (split line ' ')[i]?.bind (uintValueFromPair lib) = some n := by
  have hi := h i h1 hk
  obtain ⟨v, hv⟩ := Option.isSome_iff_exists.1 hi
  cases ht : (split line ' ')[i]? with
  | none => rw [ht] at hv; exact absurd hv (by simp)
  | some t =>
    rw [ht] at hv
    simp only [Option.some_bind] at hv ⊢
    rw [uintValueFromPair_eq, hv]
    exact ⟨_, rfl⟩

theorem readGlyph_of_hasPairs (lib : CLib) (W H F nb : ℚ) (line : Str) (h : HasPairs 8 line) :
    ∃ g, readGlyph lib W H F nb line = some g := by
  obtain ⟨id, hid⟩ := h.uint lib 1 (by omega) (by omega)
  obtain ⟨_, -, h2⟩ := h.float lib 2 (by omega) (by omega)
  obtain ⟨_, -, h3⟩ := h.float lib 3 (by omega) (by omega)
  obtain ⟨_, -, h4⟩ := h.float lib 4 (by omega) (by omega)
  obtain ⟨_, -, h5⟩ := h.float lib 5 (by omega) (by omega)
  obtain ⟨_, -, h6⟩ := h.float lib 6 (by omega) (by omega)
  obtain ⟨_, -, h7⟩ := h.float lib 7 (by omega) (by omega)
  obtain ⟨_, -, h8⟩ := h.float lib 8 (by omega) (by omega)
  simp only [readGlyph, hid, h2, h3, h4, h5, h6, h7, h8, Option.some_bind]
  exact ⟨_, rfl⟩

theorem readGlyphs_of_hasPairs (lib : CLib) (W H F nb : ℚ) :
    ∀ (n : Nat) (s : IStream) (glyphMap : GlyphMap),
      (∀ line ∈ characterLines n s, HasPairs 8 line) →
      ∃ glyphs, readGlyphs lib W H F nb n s glyphMap = some glyphs
  | 0, _, glyphMap, _ => ⟨glyphMap, rfl⟩
  | n + 1, s, glyphMap, h => by
    obtain ⟨g, hg⟩ := readGlyph_of_hasPairs lib W H F nb (getline s).1
      (h _ (by simp [characterLines]))
    unfold readGlyphs
    rw [hg]
    exact readGlyphs_of_hasPairs lib W H F nb n _ _
      (fun line hl => h line (by simp [characterLines, hl]))

/-- The glyph built from a line carries the character code and the pixel rectangle of the line. -/
theorem readGlyph_eq_some {lib : CLib} {W H F nb : ℚ} {line : Str} {g : GlyphData}
    (h : readGlyph lib W H F nb line = some g) :
    characterCode lib line = some g.character ∧
    ∃ rect, pixelRect lib line = some rect ∧
      g.uvrect = (rect.1 / W, (H - (rect.2.1 + rect.2.2.2)) / H, rect.2.2.1 / W, rect.2.2.2 / H) := by
  unfold readGlyph at h
  simp only [Option.bind_eq_some] at h
  obtain ⟨id, hid, x, hx, y, hy, w, hw, ht, hht, xo, -, yo, -, xa, -, hg⟩ := h
  have hg' := Option.some.inj hg
  subst hg'
  refine ⟨?_, (x, y, w, ht), ?_, rfl⟩
  · unfold characterCode
    simp only [Option.map_eq_some', Option.bind_eq_some]
    obtain ⟨a, ha, ha'⟩ := hid
    exact ⟨id, ⟨a, ha, ha'⟩, rfl⟩
  · unfold pixelRect
    simp only [Option.bind_eq_some, Option.map_eq_some']
    exact ⟨x, hx, y, hy, w, hw, ht, hht, rfl⟩

/-- A property of glyphs that holds in the map on entry and for every glyph built from one of
the lines read holds in the map the loop returns. -/
theorem readGlyphs_forall (lib : CLib) (W H F nb : ℚ) (P : GlyphData → Prop) :
    ∀ (n : Nat) (s : IStream) (glyphMap glyphs : GlyphMap),
      readGlyphs lib W H F nb n s glyphMap = some glyphs →
      (∀ kv ∈ glyphMap, P kv.2) →
      (∀ line ∈ characterLines n s, ∀ g, readGlyph lib W H F nb line = some g → P g) →
      ∀ kv ∈ glyphs, P kv.2
  | 0, _, glyphMap, glyphs, h, h0, _ => by
    have : glyphMap = glyphs := Option.some.inj h
    subst this; exact h0
  | n + 1, s, glyphMap, glyphs, h, h0, hl => by
    unfold readGlyphs at h
    cases hg : readGlyph lib W H F nb (getline s).1 with
    | none => rw [hg] at h; exact absurd h (by simp)
    | some g =>
      rw [hg] at h
      refine readGlyphs_forall lib W H F nb P n _ _ glyphs h ?_ ?_
      · intro kv hkv
        rcases GlyphMap.mem_assign _ _ _ kv hkv with rfl | hm
        · exact hl _ (by simp [characterLines]) g hg
        · exact h0 kv hm
      · intro line hline
        exact hl line (by simp [characterLines, hline])

/-- The loop adds one entry per line when the character codes of the lines are pairwise distinct
and none of them is a key of the map on entry. -/
theorem readGlyphs_length (lib : CLib) (W H F nb : ℚ) :
    ∀ (n : Nat) (s : IStream) (glyphMap glyphs : GlyphMap),
      readGlyphs lib W H F nb n s glyphMap = some glyphs →
      ((characterLines n s).map (characterCode lib)).Nodup →
      (∀ k ∈ glyphMap.map Prod.fst, some k ∉ (characterLines n s).map (characterCode lib)) →
      glyphs.length = glyphMap.length + n
  | 0, _, glyphMap, glyphs, h, _, _ => by
    have : glyphMap = glyphs := Option.some.inj h
    subst this; rfl
  | n + 1, s, glyphMap, glyphs, h, hn, hd => by
    unfold readGlyphs at h
    cases hg : readGlyph lib W H F nb (getline s).1 with
    | none => rw [hg] at h; exact absurd h (by simp)
    | some g =>
      rw [hg] at h
      have hc := (readGlyph_eq_some hg).1
      simp only [characterLines, List.map_cons, List.nodup_cons] at hn
      simp only [characterLines, List.map_cons, List.mem_cons, not_or] at hd
      have hnew : g.character ∉ glyphMap.map Prod.fst := by
        intro hk
        exact (hd _ hk).1 hc.symm
      rw [readGlyphs_length lib W H F nb n _ _ glyphs h hn.2 ?_, GlyphMap.length_assign _ _ _ hnew]
      · omega
      · intro k hk
        rcases (GlyphMap.keys_assign _ _ _ k).1 hk with rfl | hk
        · rw [← hc]; exact hn.1
        · exact (hd _ hk).2

/-! ## The reader: properties -/

/-- A successful run of `readUnity3dFontMetaFile`: the path is not empty, the header was read, and
the loop over the character lines returned the map of the result. -/
theorem readUnity3dFontMetaFile_eq_true {lib : CLib} {fs : Str → Option Str} {filePath : Str}
    {glyphMap : GlyphMap} {f0 l0 : ℚ} {r : ReadResult}
    (hr : readUnity3dFontMetaFile lib fs filePath glyphMap f0 l0 = some r) (hok : r.ok = true) :
    ∃ h s, readHeader lib (IStream.ofFile (fs filePath)) = some (h, s) ∧
      readGlyphs lib h.scaleWidth h.scaleHeight h.fontPixelHeight (h.baseLine / h.fontPixelHeight)
        h.charscount s glyphMap = some r.glyphMap ∧
      r.fontPixelHeight = h.fontPixelHeight ∧
      r.normalisedLineHeight = h.lineHeight / h.fontPixelHeight := by
  unfold readUnity3dFontMetaFile at hr
  by_cases hp : filePath = []
  · rw [if_pos hp] at hr
    have := Option.some.inj hr
    subst this
    exact absurd hok (by simp)
  · rw [if_neg hp] at hr
    cases hh : readHeader lib (IStream.ofFile (fs filePath)) with
    | none => rw [hh] at hr; exact absurd hr (by simp)
    | some hs =>
      obtain ⟨h, s⟩ := hs
      rw [hh] at hr
      simp only at hr
      cases hg : readGlyphs lib h.scaleWidth h.scaleHeight h.fontPixelHeight
          (h.baseLine / h.fontPixelHeight) h.charscount s glyphMap with
      | none => rw [hg] at hr; exact absurd hr (by simp)
      | some glyphs =>
        rw [hg] at hr
        have := Option.some.inj hr
        subst this
        exact ⟨h, s, rfl, hg, rfl, rfl⟩

/-- With an empty path the function returns false and leaves its reference parameters as they
are. -/
theorem readUnity3dFontMetaFile_empty_path (lib : CLib) (fs : Str → Option Str)
    (glyphMap : GlyphMap) (f0 l0 : ℚ) :
    readUnity3dFontMetaFile lib fs [] glyphMap f0 l0 = some ⟨false, glyphMap, f0, l0⟩ := by
  unfold readUnity3dFontMetaFile
  rw [if_pos rfl]

/-- On a path that is not empty and cannot be opened the function has no defined result,
whatever the C library: the info line stays empty, and its token 1 does not exist. -/
theorem readUnity3dFontMetaFile_of_unopenable (lib : CLib) (fs : Str → Option Str)
    (filePath : Str) (glyphMap : GlyphMap) (f0 l0 : ℚ) (hpath : filePath ≠ [])
    (hfile : fs filePath = none) :
    readUnity3dFontMetaFile lib fs filePath glyphMap f0 l0 = none := by
  unfold readUnity3dFontMetaFile
  rw [if_neg hpath, hfile]
  rfl

/-- An iteration of the character loop on a stream that is no longer good has no defined result:
the line stays empty, and its token 1 does not exist. -/
theorem readGlyphs_of_not_good (lib : CLib) (W H F nb : ℚ) (n : Nat) (s : IStream)
    (glyphMap : GlyphMap) (hs : s.good = false) :
    readGlyphs lib W H F nb (n + 1) s glyphMap = none := by
  have hl : (getline s).1 = [] := by
    unfold getline
    rw [hs]
    rfl
  unfold readGlyphs
  rw [hl]
  rfl

/-- When `vsg::findFile` does not find the metrics file (it returns an empty path), `readFont`
returns a null Font. -/
theorem readFont_of_not_found (lib : CLib) (vsg : Vsg) (fontName : Str) (options : Options)
    (h : vsg.findFile (vsg.concatPaths "fonts".toList fontName ++ ".txt".toList) options.paths
      = []) :
    readFont lib vsg fontName options = some none := by
  unfold readFont
  simp only [h, readUnity3dFontMetaFile_empty_path]
  split <;> simp

/-- The whole function on the descriptor of the worked example. -/
theorem exampleDescriptor_read :
    readUnity3dFontMetaFile decimalLib (oneFile "f.txt".toList exampleDescriptor)
      "f.txt".toList [] 0 0 = some exampleResult := by
  decide!

/-- The header of the descriptor of the worked example, and the stream after it. -/
theorem exampleDescriptor_header :
    readHeader decimalLib (IStream.ofFile (oneFile "f.txt".toList exampleDescriptor "f.txt".toList))
      = some (exampleHeader, exampleStream) := by
  decide!

/-- C1: for a character line whose tokens 1 to 8 carry the values id, x, y, width, height,
xoffset, yoffset, xadvance, read under a header with atlas size W by H, font pixel height F and
baseline B (W, H, F non-zero), the iteration of the loop that reads the line stores, under the
character code of id (id mod 65536, which is id for a 16-bit code), the glyph with
uvrect = (x/W, (H - (y + height))/H, width/W, height/H), size = (width/F, height/F),
offset = (xoffset/F, B/F - height/F - yoffset/F), xadvance = xadvance/F and lookupOffset = 0. -/
theorem readGlyphs_stores_normalised_glyph (lib : CLib) (W H F B : ℚ) (s : IStream)
    (glyphMap : GlyphMap) (id : Nat) (x y width height xoffset yoffset xadvance : ℚ)
    (hW : W ≠ 0) (hH : H ≠ 0) (hF : F ≠ 0)
    (hid : (split (getline s).1 ' ')[1]?.bind (uintValueFromPair lib) = some id)
    (hx : (split (getline s).1 ' ')[2]?.bind (floatValueFromPair lib) = some x)
    (hy : (split (getline s).1 ' ')[3]?.bind (floatValueFromPair lib) = some y)
    (hwidth : (split (getline s).1 ' ')[4]?.bind (floatValueFromPair lib) = some width)
    (hheight : (split (getline s).1 ' ')[5]?.bind (floatValueFromPair lib) = some height)
    (hxoffset : (split (getline s).1 ' ')[6]?.bind (floatValueFromPair lib) = some xoffset)
    (hyoffset : (split (getline s).1 ' ')[7]?.bind (floatValueFromPair lib) = some yoffset)
    (hxadvance : (split (getline s).1 ' ')[8]?.bind (floatValueFromPair lib) = some xadvance) :
    ∃ glyphs, readGlyphs lib W H F (B / F) 1 s glyphMap = some glyphs ∧
      glyphs.find (id % 65536) = some
        { character := id % 65536
          uvrect := (x / W, (H - (y + height)) / H, width / W, height / H)
          size := (width / F, height / F)
          offset := (xoffset / F, B / F - height / F - yoffset / F)
          xadvance := xadvance / F
          lookupOffset := 0 } := by
  have hg : readGlyph lib W H F (B / F) (getline s).1 = some
        { character := id % 65536
          uvrect := (x / W, (H - (y + height)) / H, width / W, height / H)
          size := (width / F, height / F)
          offset := (xoffset / F, B / F - height / F - yoffset / F)
          xadvance := xadvance / F
          lookupOffset := 0 } := by
    simp only [readGlyph, hid, hx, hy, hwidth, hheight, hxoffset, hyoffset, hxadvance,
      Option.some_bind]
  refine ⟨_, ?_, GlyphMap.find_assign_self glyphMap (id % 65536) _⟩
  rw [readGlyphs, hg]
  rfl

/-- Witness of C1: the worked example.  Under W = H = 256, F = 64, B = 52, the line
`char id=65 x=10 y=20 width=30 height=40 xoffset=2 yoffset=5 xadvance=35` is stored under 65 with
uvrect (0.0390625, 0.765625, 0.1171875, 0.15625), size (0.46875, 0.625),
offset (0.03125, 0.109375) and xadvance 0.546875. -/
theorem readGlyphs_stores_normalised_glyph_witness :
    ∃ glyphs, readGlyphs decimalLib 256 256 64 (52 / 64) 1
        ⟨true, "char id=65 x=10 y=20 width=30 height=40 xoffset=2 yoffset=5 xadvance=35\n".toList⟩
        [] = some glyphs ∧
      glyphs.find 65 = some
        { character := 65
          uvrect := (0.0390625, 0.765625, 0.1171875, 0.15625)
          size := (0.46875, 0.625)
          offset := (0.03125, 0.109375)
          xadvance := 0.546875
          lookupOffset := 0 } := by
  obtain ⟨glyphs, h1, h2⟩ := readGlyphs_stores_normalised_glyph decimalLib 256 256 64 52
    ⟨true, "char id=65 x=10 y=20 width=30 height=40 xoffset=2 yoffset=5 xadvance=35\n".toList⟩
    [] 65 10 20 30 40 2 5 35 (by norm_num) (by norm_num) (by norm_num)
    (by decide!) (by decide!) (by decide!) (by decide!) (by decide!) (by decide!) (by decide!)
    (by decide!)
  refine ⟨glyphs, h1, ?_⟩
  rw [show (65 : Nat) % 65536 = 65 from rfl] at h2
  rw [h2]
  norm_num


/-- C2, as stated, fails: on a descriptor that declares two glyphs and gives two lines for the
character code 65, the run from an empty map returns true and the map has one entry, the glyph of
the second line. -/
theorem glyph_count_counterexample :
    readUnity3dFontMetaFile decimalLib (oneFile "f.txt".toList duplicateDescriptor)
        "f.txt".toList [] 0 0 = some duplicateResult ∧
    duplicateResult.ok = true ∧
    declaredCount decimalLib duplicateDescriptor = some 2 ∧
    duplicateResult.glyphMap.size = 1 := by
  refine ⟨by decide!, by decide, by decide, by decide⟩

/-- C2, amended: for every descriptor on which `readUnity3dFontMetaFile`, started with an empty
glyph map, returns true, and whose character lines carry pairwise distinct character codes, the
number of entries of the resulting glyph map equals the count declared on the chars-count
line. -/
theorem glyph_count_of_distinct_codes (lib : CLib) (fs : Str → Option Str) (filePath : Str)
    (f0 l0 : ℚ) (r : ReadResult) (h : Header) (s : IStream)
    (hr : readUnity3dFontMetaFile lib fs filePath [] f0 l0 = some r) (hok : r.ok = true)
    (hh : readHeader lib (IStream.ofFile (fs filePath)) = some (h, s))
    (hd : ((characterLines h.charscount s).map (characterCode lib)).Nodup) :
    r.glyphMap.size = h.charscount := by
  obtain ⟨h', s', hh', hg, -, -⟩ := readUnity3dFontMetaFile_eq_true hr hok
  rw [hh] at hh'
  have he := Option.some.inj hh'
  have h1 : h' = h := (congrArg Prod.fst he).symm
  have h2 : s' = s := (congrArg Prod.snd he).symm
  subst h1; subst h2
  have := readGlyphs_length lib _ _ _ _ _ _ _ _ hg hd (by simp)
  simpa [GlyphMap.size] using this

/-- Witness of C2, amended: the descriptor of the worked example, one declared glyph. -/
theorem glyph_count_of_distinct_codes_witness : exampleResult.glyphMap.size = 1 :=
  glyph_count_of_distinct_codes decimalLib (oneFile "f.txt".toList exampleDescriptor)
    "f.txt".toList 0 0 exampleResult exampleHeader exampleStream
    exampleDescriptor_read rfl exampleDescriptor_header (by decide)

/-- C4, as stated, fails: a descriptor whose glyph has x = 250 and width = 30 in an atlas 256
wide loads successfully, and its glyph has uv origin x + size x = 125/128 + 15/128 > 1. -/
theorem uv_range_counterexample :
    readUnity3dFontMetaFile decimalLib (oneFile "f.txt".toList overhangDescriptor)
        "f.txt".toList [] 0 0 = some overhangResult ∧
    overhangResult.ok = true ∧
    ¬ ∀ kv ∈ overhangResult.glyphMap, UVInRange kv.2 := by
  refine ⟨by decide!, by decide, by decide!⟩

/-- C4, amended: for every descriptor that `readUnity3dFontMetaFile` loads successfully into an
empty glyph map, whose atlas width and height are positive and whose character lines all have
their pixel rectangle inside the atlas (0 ≤ x, x + width ≤ W, 0 ≤ y, y + height ≤ H), every glyph
g of the glyph map has 0 ≤ uv origin x, origin x + size x ≤ 1, 0 ≤ origin y and
origin y + size y ≤ 1. -/
theorem uv_range_of_inside_atlas (lib : CLib) (fs : Str → Option Str) (filePath : Str)
    (f0 l0 : ℚ) (r : ReadResult) (h : Header) (s : IStream)
    (hr : readUnity3dFontMetaFile lib fs filePath [] f0 l0 = some r) (hok : r.ok = true)
    (hh : readHeader lib (IStream.ofFile (fs filePath)) = some (h, s))
    (hW : 0 < h.scaleWidth) (hH : 0 < h.scaleHeight)
    (hin : ∀ line ∈ characterLines h.charscount s, ∀ rect, pixelRect lib line = some rect →
      InsideAtlas h.scaleWidth h.scaleHeight rect) :
    ∀ kv ∈ r.glyphMap, UVInRange kv.2 := by
  obtain ⟨h', s', hh', hg, -, -⟩ := readUnity3dFontMetaFile_eq_true hr hok
  rw [hh] at hh'
  have he := Option.some.inj hh'
  have h1 : h' = h := (congrArg Prod.fst he).symm
  have h2 : s' = s := (congrArg Prod.snd he).symm
  subst h1; subst h2
  refine readGlyphs_forall lib _ _ _ _ UVInRange _ _ _ _ hg (by simp) ?_
  intro line hline g hgl
  obtain ⟨-, rect, hrect, huv⟩ := readGlyph_eq_some hgl
  obtain ⟨hx0, hx1, hy0, hy1⟩ := hin line hline rect hrect
  unfold UVInRange
  rw [huv]
  simp only
  refine ⟨div_nonneg hx0 hW.le, ?_, div_nonneg (by linarith) hH.le, ?_⟩
  · rw [← add_div, div_le_one hW]; exact hx1
  · rw [← add_div, div_le_one hH]; linarith

/-- Witness of C4, amended: the glyph of the worked example lies inside its atlas. -/
theorem uv_range_of_inside_atlas_witness :
    UVInRange ⟨65, (5 / 128, 49 / 64, 15 / 128, 5 / 32), (15 / 32, 5 / 8), (1 / 32, 7 / 64),
      35 / 64, 0⟩ :=
  uv_range_of_inside_atlas decimalLib (oneFile "f.txt".toList exampleDescriptor)
    "f.txt".toList 0 0 exampleResult exampleHeader exampleStream
    exampleDescriptor_read rfl exampleDescriptor_header (by decide!) (by decide!)
    (by
      intro line hline rect hrect
      have hl : characterLines exampleHeader.charscount exampleStream =
          ["char id=65 x=10 y=20 width=30 height=40 xoffset=2 yoffset=5 xadvance=35".toList] := by
        decide
      rw [hl, List.mem_singleton] at hline
      subst hline
      have hp : pixelRect decimalLib
          "char id=65 x=10 y=20 width=30 height=40 xoffset=2 yoffset=5 xadvance=35".toList
            = some (10, 20, 30, 40) := by decide!
      rw [hp] at hrect
      have := Option.some.inj hrect
      subst this
      decide!)
    (65, ⟨65, (5 / 128, 49 / 64, 15 / 128, 5 / 32), (15 / 32, 5 / 8), (1 / 32, 7 / 64),
      35 / 64, 0⟩)
    (List.mem_singleton.2 rfl)

/-- C5, the code at a failing input: on a path that is not empty and cannot be opened
`readUnity3dFontMetaFile` does not return false; the info line stays empty and indexing its
tokens is out of bounds.  `readFont`, when `vsg::findFile` finds the metrics file and the file
cannot be opened, does not return an absent Font either. -/
theorem readFont_unopenable_file :
    readUnity3dFontMetaFile decimalLib (fun _ => none) "fonts/roboto.txt".toList [] 0 0 = none ∧
    readFont decimalLib unreadableMetrics "roboto".toList ⟨[]⟩ = none := by
  constructor
  · decide
  · decide

/-- C6, the code at a failing input: on a descriptor that declares one glyph and has no
character line, `readUnity3dFontMetaFile` does not report a failure; the loop reads an empty line
and indexing its tokens is out of bounds. -/
theorem readUnity3dFontMetaFile_truncated :
    declaredCount decimalLib truncatedDescriptor = some 1 ∧
    characterLines 1 (getline (afterPage truncatedDescriptor)).2 = [[]] ∧
    readUnity3dFontMetaFile decimalLib (oneFile "f.txt".toList truncatedDescriptor)
      "f.txt".toList [] 0 0 = none := by
  refine ⟨by decide, by decide, by decide⟩


/-- On a descriptor whose three header lines carry their pairs, `readHeader` succeeds, leaves the
stream after the chars-count line, and sets the font pixel height, the line height and the count
from the values of their tokens. -/
theorem readHeader_of_hasPairs (lib : CLib) (content : Str)
    (hinfo : HasPairs 2 (infoLine content)) (hcommon : HasPairs 4 (commonLine content))
    (hchars : HasPairs 1 (charsLine content)) :
    ∃ hd sizeTok heightTok,
      readHeader lib ⟨true, content⟩ = some (hd, (getline (afterPage content)).2) ∧
      (split (infoLine content) ' ')[2]?.bind stringValueFromPair = some sizeTok ∧
      (split (commonLine content) ' ')[1]?.bind stringValueFromPair = some heightTok ∧
      hd.fontPixelHeight = lib.atof sizeTok ∧ hd.lineHeight = lib.atof heightTok ∧
      declaredCount lib content = some hd.charscount := by
  obtain ⟨face, hface⟩ := Option.isSome_iff_exists.1 (hinfo 1 (by omega) (by omega))
  obtain ⟨sizeTok, hs, hsize⟩ := hinfo.float lib 2 (by omega) (by omega)
  obtain ⟨heightTok, hl, hheight⟩ := hcommon.float lib 1 (by omega) (by omega)
  obtain ⟨b, -, hbase⟩ := hcommon.float lib 2 (by omega) (by omega)
  obtain ⟨sw, -, hsw⟩ := hcommon.float lib 3 (by omega) (by omega)
  obtain ⟨sh, -, hsh⟩ := hcommon.float lib 4 (by omega) (by omega)
  obtain ⟨n, hn⟩ := hchars.uint lib 1 (by omega) (by omega)
  refine ⟨⟨face, lib.atof sizeTok, lib.atof heightTok, lib.atof b, lib.atof sw, lib.atof sh, n⟩,
    sizeTok, heightTok, ?_, hs, hl, ?_, ?_, ?_⟩
  · simp only [infoLine, commonLine, charsLine, afterPage] at hface hsize hheight hbase hsw hsh hn
    simp only [readHeader, hface, hsize, hheight, hbase, hsw, hsh, hn, Option.some_bind, afterPage]
  · rfl
  · rfl
  · exact hn

/-- C9: for every well-formed descriptor (with a non-zero font size), `readUnity3dFontMetaFile`
returns true, sets fontPixelHeight to the value F of token 2 of the info line and
normalisedLineHeight to lineHeight / F, lineHeight being the value of token 1 of the common line;
every other well-formed descriptor with the same two tokens gives the same two outputs, whatever
its other tokens, its glyphs and the values of the reference parameters on entry. -/
theorem readUnity3dFontMetaFile_header_metrics (lib : CLib) (fs : Str → Option Str)
    (filePath content : Str) (glyphMap : GlyphMap) (f0 l0 : ℚ)
    (hpath : filePath ≠ []) (hfile : fs filePath = some content)
    (hwf : WellFormed lib content)
    (hF : (split (infoLine content) ' ')[2]?.bind (floatValueFromPair lib) ≠ some 0) :
    ∃ r sizeTok heightTok,
      readUnity3dFontMetaFile lib fs filePath glyphMap f0 l0 = some r ∧ r.ok = true ∧
      (split (infoLine content) ' ')[2]?.bind stringValueFromPair = some sizeTok ∧
      (split (commonLine content) ' ')[1]?.bind stringValueFromPair = some heightTok ∧
      r.fontPixelHeight = lib.atof sizeTok ∧
      r.normalisedLineHeight = lib.atof heightTok / lib.atof sizeTok ∧
      ∀ (fs' : Str → Option Str) (filePath' content' : Str) (glyphMap' : GlyphMap) (f0' l0' : ℚ),
        filePath' ≠ [] → fs' filePath' = some content' → WellFormed lib content' →
        (split (infoLine content') ' ')[2]? = (split (infoLine content) ' ')[2]? →
        (split (commonLine content') ' ')[1]? = (split (commonLine content) ' ')[1]? →
        ∃ r', readUnity3dFontMetaFile lib fs' filePath' glyphMap' f0' l0' = some r' ∧
          r'.ok = true ∧ r'.fontPixelHeight = r.fontPixelHeight ∧
          r'.normalisedLineHeight = r.normalisedLineHeight := by
  have key : ∀ (fs : Str → Option Str) (filePath content : Str) (glyphMap : GlyphMap)
      (f0 l0 : ℚ), filePath ≠ [] → fs filePath = some content → WellFormed lib content →
      ∃ r sizeTok heightTok,
        readUnity3dFontMetaFile lib fs filePath glyphMap f0 l0 = some r ∧ r.ok = true ∧
        (split (infoLine content) ' ')[2]?.bind stringValueFromPair = some sizeTok ∧
        (split (commonLine content) ' ')[1]?.bind stringValueFromPair = some heightTok ∧
        r.fontPixelHeight = lib.atof sizeTok ∧
        r.normalisedLineHeight = lib.atof heightTok / lib.atof sizeTok := by
    intro fs filePath content glyphMap f0 l0 hpath hfile hwf
    obtain ⟨hinfo, hcommon, hchars, hlines⟩ := hwf
    obtain ⟨hd, sizeTok, heightTok, hh, hs, hl, hfp, hlh, hcount⟩ :=
      readHeader_of_hasPairs lib content hinfo hcommon hchars
    obtain ⟨glyphs, hg⟩ := readGlyphs_of_hasPairs lib hd.scaleWidth hd.scaleHeight
      hd.fontPixelHeight (hd.baseLine / hd.fontPixelHeight) hd.charscount
      (getline (afterPage content)).2 glyphMap (hlines hd.charscount hcount)
    refine ⟨⟨true, glyphs, hd.fontPixelHeight, hd.lineHeight / hd.fontPixelHeight⟩,
      sizeTok, heightTok, ?_, rfl, hs, hl, hfp, ?_⟩
    · unfold readUnity3dFontMetaFile
      rw [if_neg hpath, hfile]
      simp only [IStream.ofFile, hh, hg]
    · show hd.lineHeight / hd.fontPixelHeight = _
      rw [hfp, hlh]
  obtain ⟨r, sizeTok, heightTok, hr, hok, hs, hl, hfp, hnl⟩ :=
    key fs filePath content glyphMap f0 l0 hpath hfile hwf
  refine ⟨r, sizeTok, heightTok, hr, hok, hs, hl, hfp, hnl, ?_⟩
  intro fs' filePath' content' glyphMap' f0' l0' hpath' hfile' hwf' hinfo' hcommon'
  obtain ⟨r', sizeTok', heightTok', hr', hok', hs', hl', hfp', hnl'⟩ :=
    key fs' filePath' content' glyphMap' f0' l0' hpath' hfile' hwf'
  rw [hinfo', hs] at hs'
  rw [hcommon', hl] at hl'
  have e1 := Option.some.inj hs'
  have e2 := Option.some.inj hl'
  subst e1; subst e2
  exact ⟨r', hr', hok', hfp'.trans hfp.symm, hnl'.trans hnl.symm⟩

theorem exampleDescriptor_wellFormed : WellFormed decimalLib exampleDescriptor := by
  refine ⟨?_, ?_, ?_, ?_⟩
  · intro i h1 h2
    interval_cases i <;> decide
  · intro i h1 h2
    interval_cases i <;> decide
  · intro i h1 h2
    obtain rfl : i = 1 := by omega
    decide
  · intro n hn line hline
    have hc : declaredCount decimalLib exampleDescriptor = some 1 := by decide
    rw [hc] at hn
    have := Option.some.inj hn
    subst this
    have hl : characterLines 1 (getline (afterPage exampleDescriptor)).2 =
        ["char id=65 x=10 y=20 width=30 height=40 xoffset=2 yoffset=5 xadvance=35".toList] := by
      decide
    rw [hl, List.mem_singleton] at hline
    subst hline
    intro i h1 h2
    interval_cases i <;> decide

/-- Witness of C9: the descriptor of the worked example, size 64 and line height 70. -/
theorem readUnity3dFontMetaFile_header_metrics_witness :
    ∃ r, readUnity3dFontMetaFile decimalLib (oneFile "f.txt".toList exampleDescriptor)
        "f.txt".toList [] 0 0 = some r ∧ r.ok = true ∧
      r.fontPixelHeight = 64 ∧ r.normalisedLineHeight = 70 / 64 := by
  obtain ⟨r, sizeTok, heightTok, hr, hok, hs, hl, hfp, hnl, -⟩ :=
    readUnity3dFontMetaFile_header_metrics decimalLib (oneFile "f.txt".toList exampleDescriptor)
      "f.txt".toList exampleDescriptor [] 0 0 (by decide) rfl
      exampleDescriptor_wellFormed (by decide!)
  have hs' : (split (infoLine exampleDescriptor) ' ')[2]?.bind stringValueFromPair
      = some "64".toList := by decide
  have hl' : (split (commonLine exampleDescriptor) ' ')[1]?.bind stringValueFromPair
      = some "70".toList := by decide
  rw [hs'] at hs
  rw [hl'] at hl
  have e1 := Option.some.inj hs
  have e2 := Option.some.inj hl
  subst e1; subst e2
  refine ⟨r, hr, hok, ?_, ?_⟩
  · rw [hfp]; decide!
  · rw [hnl]; decide!

/-! ## Lemmas on the technique cache -/

section cache
variable (derives : TechniqueClass → TechniqueClass → Bool)
variable (create : TechniqueClass → Font → TechniqueState)

theorem cast_eq_some {T : TechniqueClass} {t u : Technique}
    (h : t.cast derives T = some u) : u = t ∧ castsTo derives t.dynType T := by
  unfold Technique.cast at h
  split at h
  · rename_i hc
    exact ⟨(Option.some.inj h).symm, hc⟩
  · exact absurd h (by simp)

theorem cast_of_castsTo {T : TechniqueClass} {t : Technique}
    (h : castsTo derives t.dynType T) : t.cast derives T = some t := by
  unfold Technique.cast
  exact if_pos h

theorem cast_eq_none {T : TechniqueClass} {t : Technique}
    (h : t.cast derives T = none) : ¬ castsTo derives t.dynType T := by
  intro hc
  rw [cast_of_castsTo derives hc] at h
  exact absurd h (by simp)

theorem findTechnique_some {T : TechniqueClass} :
    ∀ {l : List Technique} {t : Technique}, Font.findTechnique derives T l = some t →
      t ∈ l ∧ castsTo derives t.dynType T
  | [], t, h => by simp [Font.findTechnique] at h
  | a :: l, t, h => by
    unfold Font.findTechnique at h
    cases hc : a.cast derives T with
    | some u =>
      rw [hc] at h
      obtain ⟨hu, hcast⟩ := cast_eq_some derives hc
      have : u = t := Option.some.inj h
      subst this; subst hu
      exact ⟨List.mem_cons_self _ _, hcast⟩
    | none =>
      rw [hc] at h
      obtain ⟨hm, hcast⟩ := findTechnique_some h
      exact ⟨List.mem_cons_of_mem _ hm, hcast⟩

theorem findTechnique_none {T : TechniqueClass} :
    ∀ {l : List Technique}, Font.findTechnique derives T l = none →
      ∀ t ∈ l, ¬ castsTo derives t.dynType T
  | [], _, t, ht => by simp at ht
  | a :: l, h, t, ht => by
    unfold Font.findTechnique at h
    cases hc : a.cast derives T with
    | some u => rw [hc] at h; exact absurd h (by simp)
    | none =>
      rw [hc] at h
      rcases List.mem_cons.1 ht with rfl | hm
      · exact cast_eq_none derives hc
      · exact findTechnique_none h t hm

theorem findTechnique_append_of_some {T : TechniqueClass} :
    ∀ {l : List Technique} {t : Technique} (l' : List Technique),
      Font.findTechnique derives T l = some t → Font.findTechnique derives T (l ++ l') = some t
  | [], t, _, h => by simp [Font.findTechnique] at h
  | a :: l, t, l', h => by
    unfold Font.findTechnique at h
    rw [List.cons_append]
    unfold Font.findTechnique
    cases hc : a.cast derives T with
    | some u => rw [hc] at h; exact h
    | none => rw [hc] at h; exact findTechnique_append_of_some l' h

theorem findTechnique_append_of_none {T : TechniqueClass} :
    ∀ {l : List Technique} (l' : List Technique),
      Font.findTechnique derives T l = none →
        Font.findTechnique derives T (l ++ l') = Font.findTechnique derives T l'
  | [], _, _ => rfl
  | a :: l, l', h => by
    unfold Font.findTechnique at h
    rw [List.cons_append]
    cases hc : a.cast derives T with
    | some u => rw [hc] at h; exact absurd h (by simp)
    | none =>
      rw [hc] at h
      rw [Font.findTechnique, hc]
      exact findTechnique_append_of_none l' h

theorem findTechnique_singleton_self (T : TechniqueClass) (a : Nat) (st : TechniqueState) :
    Font.findTechnique derives T [⟨a, T, st⟩] = some ⟨a, T, st⟩ := by
  have h : (⟨a, T, st⟩ : Technique).cast derives T = some ⟨a, T, st⟩ :=
    cast_of_castsTo derives (Or.inl rfl)
  rw [Font.findTechnique, h]

/-- What one call of `getTechnique` does: it returns a technique `t` that casts to `T`, and either
leaves the Font as it is, or appends `t`, a new object of class `T`, to a list in which nothing
casts to `T`.  In both cases the loop of a later call finds `t` again. -/
theorem getTechnique_spec (T : TechniqueClass) (font : Font) :
    ∃ t, (font.getTechnique derives create T).1 = some t ∧
      castsTo derives t.dynType T ∧
      Font.findTechnique derives T (font.getTechnique derives create T).2.techniques = some t ∧
      ((Font.findTechnique derives T font.techniques = some t ∧
          (font.getTechnique derives create T).2 = font) ∨
       (Font.findTechnique derives T font.techniques = none ∧
          t = ⟨font.heapNext, T, create T font⟩ ∧
          (font.getTechnique derives create T).2 =
            { font with techniques := font.techniques ++ [t], heapNext := font.heapNext + 1 })) := by
  unfold Font.getTechnique
  cases hf : Font.findTechnique derives T font.techniques with
  | some t =>
    exact ⟨t, rfl, (findTechnique_some derives hf).2, hf, Or.inl ⟨rfl, rfl⟩⟩
  | none =>
    refine ⟨⟨font.heapNext, T, create T font⟩, rfl, Or.inl rfl, ?_, Or.inr ⟨rfl, rfl, rfl⟩⟩
    show Font.findTechnique derives T (font.techniques ++ [_]) = _
    rw [findTechnique_append_of_none derives _ hf]
    exact findTechnique_singleton_self derives T _ _

/-- A call of `getTechnique` on a Font whose list already holds a match returns that match and
changes nothing. -/
theorem getTechnique_of_found {T : TechniqueClass} {font : Font} {t : Technique}
    (h : Font.findTechnique derives T font.techniques = some t) :
    font.getTechnique derives create T = (some t, font) := by
  unfold Font.getTechnique
  rw [h]

/-- A call of `getTechnique` keeps the technique list as a prefix of the new list. -/
theorem getTechnique_extends (T : TechniqueClass) (font : Font) :
    font.techniques <+: (font.getTechnique derives create T).2.techniques := by
  obtain ⟨t, -, -, -, h | h⟩ := getTechnique_spec derives create T font
  · rw [h.2]
  · rw [h.2.2]
    exact List.prefix_append _ _

/-- A call of `getTechnique` keeps the heap of the Font in order. -/
theorem getTechnique_heapOk (T : TechniqueClass) (font : Font) (h : font.HeapOk) :
    (font.getTechnique derives create T).2.HeapOk := by
  obtain ⟨t, -, -, -, h' | h'⟩ := getTechnique_spec derives create T font
  · rw [h'.2]; exact h
  · rw [h'.2.2]
    obtain ⟨hn, hlt⟩ := h
    have hta : t.addr = font.heapNext := by rw [h'.2.1]
    constructor
    · show ((font.techniques ++ [t]).map Technique.addr).Nodup
      rw [List.map_append, List.nodup_append]
      refine ⟨hn, by simp, ?_⟩
      intro a ha hb
      simp only [List.map_cons, List.map_nil, List.mem_singleton] at hb
      obtain ⟨u, hu, rfl⟩ := List.mem_map.1 ha
      have := hlt u hu
      omega
    · intro u hu
      show u.addr < font.heapNext + 1
      have hu' : u ∈ font.techniques ++ [t] := hu
      rcases List.mem_append.1 hu' with hu | hu
      · have := hlt u hu; omega
      · rw [List.mem_singleton.1 hu, hta]; omega


end cache

/-! ## The technique cache: properties -/

/-- C3: on every Font and for every technique class `T`, two calls of `getTechnique<T>` in a row
return the same, non-null instance, and the second call leaves the technique list unchanged. -/
theorem getTechnique_twice_same (derives : TechniqueClass → TechniqueClass → Bool)
    (create : TechniqueClass → Font → TechniqueState) (T : TechniqueClass) (font : Font) :
    ∃ t, (font.getTechnique derives create T).1 = some t ∧
      ((font.getTechnique derives create T).2.getTechnique derives create T).1 = some t ∧
      ((font.getTechnique derives create T).2.getTechnique derives create T).2.techniques =
        (font.getTechnique derives create T).2.techniques := by
  obtain ⟨t, h1, -, hf, -⟩ := getTechnique_spec derives create T font
  refine ⟨t, h1, ?_, ?_⟩
  · rw [getTechnique_of_found derives create hf]
  · rw [getTechnique_of_found derives create hf]

/-- C7, as stated, fails: with a class `client 1` derived from `StandardText`, on the Font reached
from a fresh one by `getTechnique<client 1>`, the calls `getTechnique<StandardText>` and then
`getTechnique<client 1>` return one and the same instance. -/
theorem getTechnique_distinct_counterexample :
    ∃ (font : Font) (t : Technique),
      font = ((Font.fresh none ⟨[]⟩).getTechnique derivedFromStandardText
        (fun _ _ => ⟨none, none⟩) (.client 1)).2 ∧
      TechniqueClass.StandardText ≠ .client 1 ∧
      (font.getTechnique derivedFromStandardText (fun _ _ => ⟨none, none⟩) .StandardText).1
        = some t ∧
      ((font.getTechnique derivedFromStandardText (fun _ _ => ⟨none, none⟩) .StandardText).2.getTechnique
        derivedFromStandardText (fun _ _ => ⟨none, none⟩) (.client 1)).1 = some t := by
  refine ⟨_, ⟨0, .client 1, ⟨none, none⟩⟩, rfl, by decide, by decide, by decide⟩

/-- C7, amended: on every Font whose technique objects are distinct live objects, and for every
two technique classes `T1` and `T2` such that no class casts to both (neither is the other nor
derives from it, and no class derives from both), `getTechnique<T1>` followed by
`getTechnique<T2>` returns two distinct instances, and afterwards `getTechnique<T1>` and
`getTechnique<T2>` each return the instance they returned the first time, leaving the Font as it
is. -/
theorem getTechnique_distinct (derives : TechniqueClass → TechniqueClass → Bool)
    (create : TechniqueClass → Font → TechniqueState) (T1 T2 : TechniqueClass) (font : Font)
    (hheap : font.HeapOk)
    (hsep : ∀ d, ¬ (castsTo derives d T1 ∧ castsTo derives d T2)) :
    ∃ t1 t2 font2,
      (font.getTechnique derives create T1).1 = some t1 ∧
      (font.getTechnique derives create T1).2.getTechnique derives create T2 = (some t2, font2) ∧
      t1.addr ≠ t2.addr ∧
      font2.getTechnique derives create T1 = (some t1, font2) ∧
      font2.getTechnique derives create T2 = (some t2, font2) := by
  obtain ⟨t1, h1, hc1, hf1, -⟩ := getTechnique_spec derives create T1 font
  obtain ⟨t2, h2, hc2, hf2, -⟩ :=
    getTechnique_spec derives create T2 (font.getTechnique derives create T1).2
  have hpre := getTechnique_extends derives create T2 (font.getTechnique derives create T1).2
  have hheap2 := getTechnique_heapOk derives create T2 _
    (getTechnique_heapOk derives create T1 font hheap)
  obtain ⟨l', hl'⟩ := hpre
  have hf1' : Font.findTechnique derives T1
      ((font.getTechnique derives create T1).2.getTechnique derives create T2).2.techniques
        = some t1 := by
    rw [← hl']
    exact findTechnique_append_of_some derives l' hf1
  refine ⟨t1, t2, ((font.getTechnique derives create T1).2.getTechnique derives create T2).2,
    h1, ?_, ?_, getTechnique_of_found derives create hf1', getTechnique_of_found derives create hf2⟩
  · exact Prod.ext h2 rfl
  · intro haddr
    have hm1 := (findTechnique_some derives hf1').1
    have hm2 := (findTechnique_some derives hf2).1
    have hinj := List.inj_on_of_nodup_map hheap2.1 hm1 hm2 haddr
    exact hsep t1.dynType ⟨hc1, by rw [hinj]; exact hc2⟩

/-- Witness of C7, amended: in a flat class hierarchy, `StandardText` and a client class on a
fresh Font. -/
theorem getTechnique_distinct_witness :
    ∃ t1 t2 font2,
      ((Font.fresh (some 3) ⟨[]⟩).getTechnique flatHierarchy (fun _ _ => ⟨none, none⟩)
        .StandardText).1 = some t1 ∧
      ((Font.fresh (some 3) ⟨[]⟩).getTechnique flatHierarchy (fun _ _ => ⟨none, none⟩)
        .StandardText).2.getTechnique flatHierarchy (fun _ _ => ⟨none, none⟩) (.client 0)
          = (some t2, font2) ∧
      t1.addr ≠ t2.addr ∧
      font2.getTechnique flatHierarchy (fun _ _ => ⟨none, none⟩) .StandardText = (some t1, font2) ∧
      font2.getTechnique flatHierarchy (fun _ _ => ⟨none, none⟩) (.client 0) = (some t2, font2) :=
  getTechnique_distinct flatHierarchy (fun _ _ => ⟨none, none⟩) .StandardText (.client 0)
    (Font.fresh (some 3) ⟨[]⟩) ⟨by decide, by decide⟩
    (by
      intro d h
      rcases h with ⟨h1 | h1, h2 | h2⟩
      · rw [h1] at h2; exact absurd h2 (by decide)
      · exact absurd h2 (by simp [flatHierarchy])
      · exact absurd h1 (by simp [flatHierarchy])
      · exact absurd h1 (by simp [flatHierarchy]))


/-- A call of `getTechnique` keeps the dynamic types of the list pairwise distinct. -/
theorem getTechnique_types_nodup (derives : TechniqueClass → TechniqueClass → Bool)
    (create : TechniqueClass → Font → TechniqueState) (T : TechniqueClass) (font : Font)
    (h : (font.techniques.map Technique.dynType).Nodup) :
    ((font.getTechnique derives create T).2.techniques.map Technique.dynType).Nodup := by
  obtain ⟨t, -, -, -, h' | h'⟩ := getTechnique_spec derives create T font
  · rw [h'.2]; exact h
  · rw [h'.2.2]
    show ((font.techniques ++ [t]).map Technique.dynType).Nodup
    rw [List.map_append, List.nodup_append]
    refine ⟨h, by simp, ?_⟩
    intro d hd hb
    simp only [List.map_cons, List.map_nil, List.mem_singleton] at hb
    obtain ⟨u, hu, rfl⟩ := List.mem_map.1 hd
    have ht : t.dynType = T := by rw [h'.2.1]
    exact findTechnique_none derives h'.1 u hu (Or.inl (hb.trans ht))

theorem requests_types_nodup (derives : TechniqueClass → TechniqueClass → Bool)
    (create : TechniqueClass → Font → TechniqueState) :
    ∀ (reqs : List TechniqueClass) (font : Font),
      (font.techniques.map Technique.dynType).Nodup →
      ((font.requests derives create reqs).techniques.map Technique.dynType).Nodup
  | [], _, h => h
  | T :: reqs, font, h =>
    requests_types_nodup derives create reqs _ (getTechnique_types_nodup derives create T font h)

theorem requests_extends (derives : TechniqueClass → TechniqueClass → Bool)
    (create : TechniqueClass → Font → TechniqueState) :
    ∀ (reqs : List TechniqueClass) (font : Font),
      font.techniques <+: (font.requests derives create reqs).techniques
  | [], _ => List.prefix_refl _
  | T :: reqs, font =>
    (getTechnique_extends derives create T font).trans (requests_extends derives create reqs _)

theorem requests_append (derives : TechniqueClass → TechniqueClass → Bool)
    (create : TechniqueClass → Font → TechniqueState) :
    ∀ (reqs more : List TechniqueClass) (font : Font),
      font.requests derives create (reqs ++ more) =
        (font.requests derives create reqs).requests derives create more
  | [], _, _ => rfl
  | T :: reqs, more, font => requests_append derives create reqs more _

/-- C8: starting from a Font with an empty technique list, after every finite sequence of
`getTechnique` requests the list holds at most one instance of each technique class, and the list
after further requests extends the list before them (no entry is removed or replaced). -/
theorem requests_one_instance_per_class (derives : TechniqueClass → TechniqueClass → Bool)
    (create : TechniqueClass → Font → TechniqueState) (reqs more : List TechniqueClass)
    (font : Font) (hempty : font.techniques = []) :
    (∀ T, ((font.requests derives create reqs).techniques.map Technique.dynType).count T ≤ 1) ∧
    (font.requests derives create reqs).techniques <+:
      (font.requests derives create (reqs ++ more)).techniques := by
  constructor
  · have hn : (font.techniques.map Technique.dynType).Nodup := by rw [hempty]; exact List.nodup_nil
    exact List.nodup_iff_count_le_one.1 (requests_types_nodup derives create reqs font hn)
  · rw [requests_append]
    exact requests_extends derives create more _

/-- Witness of C8: the requests `StandardText, client 1, StandardText` and then `client 1` again,
on a fresh Font, with `client 1` derived from `StandardText`. -/
theorem requests_one_instance_per_class_witness :
    (∀ T, (((Font.fresh (some 1) ⟨[]⟩).requests derivedFromStandardText
        (construct noVertexShader (fun _ _ => ⟨none, none⟩))
        [.StandardText, .client 1, .StandardText]).techniques.map Technique.dynType).count T ≤ 1) ∧
    ((Font.fresh (some 1) ⟨[]⟩).requests derivedFromStandardText
        (construct noVertexShader (fun _ _ => ⟨none, none⟩))
        [.StandardText, .client 1, .StandardText]).techniques <+:
      ((Font.fresh (some 1) ⟨[]⟩).requests derivedFromStandardText
        (construct noVertexShader (fun _ _ => ⟨none, none⟩))
        ([.StandardText, .client 1, .StandardText] ++ [.client 1])).techniques :=
  requests_one_instance_per_class derivedFromStandardText
    (construct noVertexShader (fun _ _ => ⟨none, none⟩))
    [.StandardText, .client 1, .StandardText] [.client 1] (Font.fresh (some 1) ⟨[]⟩) rfl

/-- C10, the code at a failing input: with a shader loader that does not supply the vertex stage,
the constructor of `StandardText` prints its message and goes on; `getTechnique<StandardText>` on
a fresh Font returns a non-null technique, built on a null vertex stage, and publishes it in the
technique list. -/
theorem getTechnique_StandardText_missing_shader :
    (StandardText.StandardText noVertexShader (Font.fresh (some 1) ⟨[]⟩)).2
      = ["Could not create shaders."] ∧
    (Font.fresh (some 1) ⟨[]⟩).getTechnique flatHierarchy
        (construct noVertexShader (fun _ _ => ⟨none, none⟩)) .StandardText =
      (some ⟨0, .StandardText, ⟨some [none, some 7], some (some 1)⟩⟩,
       { Font.fresh (some 1) ⟨[]⟩ with
          techniques := [⟨0, .StandardText, ⟨some [none, some 7], some (some 1)⟩⟩],
          heapNext := 1 }) := by
  constructor
  · decide
  · decide


end text
